import Mathlib

/-!
Verification development for the versions repository
(scripts/publish-version.py and scripts/backfill-versions.py).

The Python sources are shallowly embedded as executable Lean definitions:

* network I/O (an httpx client) is modelled as an oracle function
  mapping a URL and an attempt number to a `Response`;
* Python dictionaries keyed by strings are modelled as association lists
  whose insert overwrites in place, preserving insertion order;
* Python exceptions that escape a function are modelled with `Except`
  (or a dedicated outcome constructor);
* Python regular expressions are embedded as backtracking matchers over
  `List Char` that enumerate alternatives in the engine's preference
  order; character classes are modelled over ASCII, `.` excludes the
  newline character, and the `$` anchor accepts the end of the string or
  a single trailing newline, as in Python's `re`.

All definitions are translated from the source scripts; line numbers in
the comments refer to the corresponding Python code.
-/

/-! ### Data model (publish-version.py lines 38-53, backfill-versions.py lines 32-43) -/

structure Artifact where
  platform : String
  variant : String
  url : String
  archive_format : String
  sha256 : String
deriving DecidableEq

structure Version where
  version : String
  date : String
  artifacts : List Artifact
deriving DecidableEq

/-! ### Ledger merge engine (publish-version.py lines 274-316)

`update_versions_file_batch` reads the existing NDJSON ledger, removes the
existing entries whose version identifier occurs in the incoming batch,
inserts each incoming version at position 0 in batch order, and truncates
to `max_versions`.  The file I/O boundary is abstracted away: the function
below maps the parsed existing ledger content and the batch to the
written ledger content. -/

def update_versions_file_batch (existing : List Version) (new_versions : List Version)
    (max_versions : Nat) : List Version :=
  let incoming_versions := new_versions.map Version.version
  let versions :=
    if incoming_versions.isEmpty then existing
    else existing.filter (fun v => v.version ∉ incoming_versions)
  let versions := new_versions.foldl (fun acc v => v :: acc) versions
  versions.take max_versions

/-- Wrapper from publish-version.py lines 267-271 (default cap 100). -/
def update_versions_file (existing : List Version) (new_version : Version) : List Version :=
  update_versions_file_batch existing [new_version] 100

/-! Concrete ledger values used by the counterexamples and scenarios. -/

def artLinux : Artifact :=
  ⟨"x86_64-unknown-linux-gnu", "default", "https://example.invalid/a.tar.gz", "tar.gz", "aa"⟩

def artMac : Artifact :=
  ⟨"aarch64-apple-darwin", "default", "https://example.invalid/b.tar.gz", "tar.gz", "bb"⟩

def v190 : Version := ⟨"1.9.0", "2024-01-01T00:00:00+00:00", [artLinux]⟩
def vDupA : Version := ⟨"3.0.0", "2024-05-01T00:00:00+00:00", [artLinux]⟩
def vDupB : Version := ⟨"3.0.0", "2024-05-02T00:00:00+00:00", [artMac]⟩
def v200old : Version := ⟨"2.0.0", "2024-02-01T00:00:00+00:00", [artLinux]⟩
def v200new : Version := ⟨"2.0.0", "2024-03-01T00:00:00+00:00", [artLinux, artMac]⟩
def v210 : Version := ⟨"2.1.0", "2024-03-01T00:00:00+00:00", [artMac]⟩

/-! ### String utilities shared by the embeddings -/

/-- Remove a literal prefix from a character list, returning the rest. -/
def stripPre : List Char → List Char → Option (List Char)
  | [], l => some l
  | _ :: _, [] => none
  | p :: ps, c :: cs => if p = c then stripPre ps cs else none

/-- Remove a literal suffix from a character list, returning the front. -/
def stripSuf (l suf : List Char) : Option (List Char) :=
  (stripPre suf.reverse l.reverse).map List.reverse

/-! ### Simple-schema filename parser (backfill-versions.py lines 77-84)

`extract_platform_from_filename` applies the anchored Python regex
`^{project}-(.+?)\.(tar\.gz|zip)$` with `re.match`.  Semantics embedded
here: the escaped project name and the dash are literal; the lazy group
`(.+?)` is one or more characters excluding newline; the extension is
literally `.tar.gz` or `.zip`; the `$` anchor also matches just before a
single trailing newline.  Given a fixed filename the decomposition into
group, extension and optional trailing newline is unique (the four
possible tails end in distinct characters or distinct 4th-from-last
characters), so the lazy/greedy distinction is immaterial and the match
is computed by suffix stripping. -/

def pickSuf (t : List Char) : Option (List Char) :=
  match stripSuf t ".tar.gz".data with
  | some g => some g
  | none => match stripSuf t ".zip".data with
    | some g => some g
    | none => match stripSuf t ".tar.gz\n".data with
      | some g => some g
      | none => stripSuf t ".zip\n".data

def extract_platform_from_filename (filename : String) (project_name : String) : Option String :=
  match stripPre (project_name.data ++ ['-']) filename.data with
  | none => none
  | some t =>
    match pickSuf t with
    | none => none
    | some g => if g ≠ [] ∧ '\n' ∉ g then some (String.mk g) else none

/-! ### HTTP model and digest-sidecar fetch
(backfill-versions.py lines 113-129, publish-version.py lines 76-91)

The httpx client is modelled as an oracle mapping a URL and the attempt
number (1-based) to the response that `client.get` returns for that call.
`raise_for_status` raises exactly for statuses of 400 and above, and the
scripts special-case 404 before calling it, so statuses below 400 are
the success path whose body is read.  An uncaught Python exception on
the success path (`content.split()[0]` on a token-free body raises
`IndexError`) is modelled by the `indexError` outcome.  The trace also
records how many attempts were made and the `time.sleep(2 ** attempt)`
durations, so the retry/backoff behavior is part of the model. -/

structure Response where
  status : Nat
  text : String
deriving DecidableEq

inductive FetchOutcome where
  | ok : Option String → FetchOutcome
  | indexError : FetchOutcome
deriving DecidableEq

structure FetchTrace where
  outcome : FetchOutcome
  attempts : Nat
  sleeps : List Nat
deriving DecidableEq

/-- Python `str.strip()` over the ASCII whitespace that can occur here. -/
def pyStrip (s : String) : String :=
  String.mk (((s.data.dropWhile Char.isWhitespace).reverse.dropWhile Char.isWhitespace).reverse)

/-- Worker for `pyTokens`: accumulates the current word reversed. -/
def splitWsGo : List Char → List Char → List (List Char)
  | [], cur => if cur = [] then [] else [cur.reverse]
  | c :: rest, cur =>
    if c.isWhitespace then
      if cur = [] then splitWsGo rest [] else cur.reverse :: splitWsGo rest []
    else splitWsGo rest (c :: cur)

/-- Python `str.split()` with no arguments: whitespace-run separated
tokens, no empty tokens. -/
def pyTokens (s : String) : List String :=
  (splitWsGo s.data []).map String.mk

/-- The retry loop of `fetch_sha256_file` / `fetch_sha256`.  `remaining`
counts the iterations left of `for attempt in range(1, 4)` and `attempt`
is the 1-based loop variable; the two are in lock-step from the initial
call (`remaining = 3`, `attempt = 1`), and the `attempt < 3` retry guard
is the code's own condition. -/
def fetch_sha256_loop (get : Nat → Response) : Nat → Nat → FetchTrace
  | 0, attempt => ⟨.ok none, attempt - 1, []⟩
  | remaining + 1, attempt =>
    let r := get attempt
    if r.status = 404 then ⟨.ok none, attempt, []⟩
    else if 400 ≤ r.status then
      if (r.status = 502 ∨ r.status = 503 ∨ r.status = 504) ∧ attempt < 3 then
        let t := fetch_sha256_loop get remaining (attempt + 1)
        ⟨t.outcome, t.attempts, 2 ^ attempt :: t.sleeps⟩
      else ⟨.ok none, attempt, []⟩
    else
      match pyTokens (pyStrip r.text) with
      | [] => ⟨.indexError, attempt, []⟩
      | tok :: _ => ⟨.ok (some tok), attempt, []⟩

/-- backfill-versions.py lines 113-129. -/
def fetch_sha256_file (get : String → Nat → Response) (url : String) : FetchTrace :=
  fetch_sha256_loop (fun k => get url k) 3 1

/-- publish-version.py lines 76-91: textually identical body to
`fetch_sha256_file`. -/
def fetch_sha256 (get : String → Nat → Response) (url : String) : FetchTrace :=
  fetch_sha256_loop (fun k => get url k) 3 1

/-! ### Runtime-distribution filename parser
(backfill-versions.py lines 50-62 and 169-186)

`PBS_FILENAME_RE` is embedded as a backtracking matcher over `List Char`.
A parser maps the remaining input to the list of (result, rest) pairs in
the preference order of the regex engine: greedy quantifiers yield the
longest alternative first, an optional group yields its match before the
empty alternative, an atomic group commits to its first alternative, and
alternation is left-to-right.  The full-match result used by `re.match`
is the head of the list of complete parses. -/

def Parse (α : Type) : Type := List Char → List (α × List Char)

def pPure {α : Type} (a : α) : Parse α := fun s => [(a, s)]

def pBind {α β : Type} (p : Parse α) (f : α → Parse β) : Parse β :=
  fun s => (p s).flatMap (fun x => f x.1 x.2)

def pOr {α : Type} (p q : Parse α) : Parse α := fun s => p s ++ q s

def pOpt {α : Type} (p : Parse α) : Parse (Option α) :=
  pOr (pBind p (fun a => pPure (some a))) (pPure none)

def pLit (cs : List Char) : Parse Unit := fun s =>
  match stripPre cs s with
  | some r => [((), r)]
  | none => []

def pGuard (c : List Char → Bool) : Parse Unit := fun s =>
  if c s then [((), s)] else []

def pAtomic {α : Type} (p : Parse α) : Parse α := fun s => (p s).take 1

/-- Greedy `[class]+`: all non-empty prefixes of the maximal run of
class characters, longest first. -/
def pGreedy (cl : Char → Bool) : Parse (List Char) := fun s =>
  let run := s.takeWhile cl
  (List.range run.length).map (fun i => (s.take (run.length - i), s.drop (run.length - i)))

/-- Character class `\d` (modelled over ASCII). -/
def isDigit09 (c : Char) : Bool := decide ('0' ≤ c ∧ c ≤ '9')

/-- Character class `[a-z\d_]` of the first and last triple segments. -/
def isSeg1 (c : Char) : Bool := decide (('a' ≤ c ∧ c ≤ 'z') ∨ ('0' ≤ c ∧ c ≤ '9') ∨ c = '_')

/-- Character class `[a-z\d]` of the middle triple segments. -/
def isSeg2 (c : Char) : Bool := decide (('a' ≤ c ∧ c ≤ 'z') ∨ ('0' ≤ c ∧ c ≤ '9'))

/-- Character class `[a-z_]` of the flavor token. -/
def isFlav (c : Char) : Bool := decide (('a' ≤ c ∧ c ≤ 'z') ∨ c = '_')

/-- Character class `.` (any character but newline). -/
def notNl (c : Char) : Bool := decide (c ≠ '\n')

/-- The negative lookahead `(?!debug(?:-|$))`: true when the input
starts with `debug` followed by a dash, the end, or the end after a
single trailing newline. -/
def lookDebug (s : List Char) : Bool :=
  match stripPre "debug".data s with
  | none => false
  | some r => decide (r.head? = some '-' ∨ r = [] ∨ r = ['\n'])

/-- The segments of the `triple` group:
`[a-z\d_]+-[a-z\d]+(?>-[a-z\d]+)?-(?!debug(?:-|$))[a-z\d_]+`. -/
structure TripleParts where
  t1 : List Char
  t2 : List Char
  t3 : Option (List Char)
  t4 : List Char
deriving DecidableEq

def tripleChars (t : TripleParts) : List Char :=
  t.t1 ++ '-' :: t.t2
    ++ (match t.t3 with | some s3 => '-' :: s3 | none => [])
    ++ '-' :: t.t4

structure PbsGroups where
  ver : List Char
  date : List Char
  triple : TripleParts
  build_options : Option (List Char)
  flavor : Option (List Char)
deriving DecidableEq

/-- The pre-release tail `(?:a|b|rc)\d+` inside the `ver` group. -/
def pbsPre : Parse (List Char) :=
  pBind (pOr (pBind (pLit ['a']) (fun _ => pPure ['a']))
             (pOr (pBind (pLit ['b']) (fun _ => pPure ['b']))
                  (pBind (pLit ['r', 'c']) (fun _ => pPure ['r', 'c']))))
    (fun tag => pBind (pGreedy isDigit09) (fun ds => pPure (tag ++ ds)))

/-- The `ver` group `\d+\.\d+\.\d+(?:(?:a|b|rc)\d+)?`. -/
def pbsVer : Parse (List Char) :=
  pBind (pGreedy isDigit09) (fun a =>
  pBind (pLit ['.']) (fun _ =>
  pBind (pGreedy isDigit09) (fun b =>
  pBind (pLit ['.']) (fun _ =>
  pBind (pGreedy isDigit09) (fun c =>
  pBind (pOpt pbsPre) (fun pre =>
  pPure (a ++ '.' :: b ++ '.' :: c ++ (match pre with | some x => x | none => []))))))))

/-- The `triple` group together with the dash that follows it in the
pattern.  The dash is included here so that the lookahead, the final
segment, and the following separator can be reasoned about together. -/
def pbsTripleDash : Parse TripleParts :=
  pBind (pGreedy isSeg1) (fun s1 =>
  pBind (pLit ['-']) (fun _ =>
  pBind (pGreedy isSeg2) (fun s2 =>
  pBind (pOpt (pAtomic (pBind (pLit ['-']) (fun _ => pGreedy isSeg2)))) (fun s3 =>
  pBind (pLit ['-']) (fun _ =>
  pBind (pGuard (fun s => !(lookDebug s))) (fun _ =>
  pBind (pGreedy isSeg1) (fun s4 =>
  pBind (pLit ['-']) (fun _ =>
  pPure ⟨s1, s2, s3, s4⟩))))))))

/-- The `$` anchor: end of input or a single trailing newline. -/
def pbsEnd : Parse Unit := pGuard (fun s => decide (s = [] ∨ s = ['\n']))

/-- The full `PBS_FILENAME_RE` pattern. -/
def pbsAll : Parse PbsGroups :=
  pBind (pLit "cpython-".data) (fun _ =>
  pBind pbsVer (fun ver =>
  pBind (pOpt (pBind (pLit ['+']) (fun _ => pGreedy isDigit09))) (fun _ =>
  pBind (pLit ['+']) (fun _ =>
  pBind (pGreedy isDigit09) (fun date =>
  pBind (pLit ['-']) (fun _ =>
  pBind pbsTripleDash (fun trip =>
  pBind (pOpt (pBind (pGreedy notNl) (fun b => pBind (pLit ['-']) (fun _ => pPure b)))) (fun bo =>
  pBind (pOpt (pGreedy isFlav)) (fun fl =>
  pBind (pLit ".tar.".data) (fun _ =>
  pBind (pOr (pLit "gz".data) (pLit "zst".data)) (fun _ =>
  pBind pbsEnd (fun _ =>
  pPure ⟨ver, date, trip, bo, fl⟩))))))))))))

/-- Python `str.split("+")` (separator form: empty parts preserved). -/
def splitPlus : List Char → List (List Char)
  | [] => [[]]
  | c :: rest =>
    if c = '+' then [] :: splitPlus rest
    else match splitPlus rest with
      | h :: t => (c :: h) :: t
      | [] => [[c]]

/-- Python `"+".join(...)`. -/
def joinPlus : List (List Char) → List Char
  | [] => []
  | [x] => x
  | x :: xs => x ++ '+' :: joinPlus xs

/-- backfill-versions.py lines 169-186.  On a match, the variant is the
`+`-join of the split build options followed by the flavor (each only if
present and non-empty, which `.+` and `[a-z_]+` guarantee), and the
composite version is `ver+date`. -/
def parse_pbs_asset_filename (filename : String) : Option (String × String × String) :=
  match (pbsAll filename.data).head? with
  | none => none
  | some (g, _) =>
    let tripleStr := String.mk (tripleChars g.triple)
    let variant_parts : List (List Char) :=
      (match g.build_options with
       | some b => splitPlus b
       | none => []) ++
      (match g.flavor with
       | some f => [f]
       | none => [])
    let variant := String.mk (joinPlus variant_parts)
    let version := String.mk (g.ver ++ '+' :: g.date)
    some (tripleStr, variant, version)

/-! ### Archive format and sorting
(get_archive_format: publish-version.py lines 64-73, backfill-versions.py
lines 65-74; sorts: Python `list.sort(key=...)` is a stable sort,
modelled by stable insertion sort) -/

def startsWithL (s pre : String) : Bool := (stripPre pre.data s.data).isSome

def endsWithL (s suf : String) : Bool := (stripSuf s.data suf.data).isSome

def get_archive_format (filename : String) : String :=
  if endsWithL filename ".tar.gz" then "tar.gz"
  else if endsWithL filename ".tar.zst" then "tar.zst"
  else if endsWithL filename ".zip" then "zip"
  else "unknown"

def pyInsert {α : Type} (le : α → α → Bool) (a : α) : List α → List α
  | [] => [a]
  | b :: bs => if le a b then a :: b :: bs else b :: pyInsert le a bs

/-- Stable sort: `le a b` means a may stay before b; ties keep the
original order, as Python's sort does. -/
def pySort {α : Type} (le : α → α → Bool) : List α → List α
  | [] => []
  | a :: rest => pyInsert le a (pySort le rest)

/-- Ascending by the key tuple (platform, variant). -/
def artifactKeyLe (a b : Artifact) : Bool :=
  decide (a.platform < b.platform
    ∨ (a.platform = b.platform ∧ (a.variant < b.variant ∨ a.variant = b.variant)))

/-- Descending by version string (`sort(key=..., reverse=True)`). -/
def versionDescLe (a b : Version) : Bool := !(decide (a.version < b.version))

/-! ### Checksum resolver (backfill-versions.py lines 97-166)

Python dictionaries keyed by filename are modelled as association lists:
insertion overwrites in place, and lookup takes the first (unique)
occurrence. -/

abbrev Dict := List (String × String)

def dictGet (d : Dict) (k : String) : Option String :=
  (d.find? (fun kv => kv.1 = k)).map (fun kv => kv.2)

def dictInsert : Dict → String → String → Dict
  | [], k, v => [(k, v)]
  | (k', v') :: rest, k, v =>
    if k' = k then (k, v) :: rest else (k', v') :: dictInsert rest k v

/-- Python `str.splitlines()` over the line boundaries that occur in
checksum manifests (`\r\n`, `\r`, `\n`); no trailing empty line. -/
def splitLinesGo : List Char → List Char → List (List Char)
  | [], cur => if cur = [] then [] else [cur.reverse]
  | '\r' :: '\n' :: rest, cur => cur.reverse :: splitLinesGo rest []
  | '\r' :: rest, cur => cur.reverse :: splitLinesGo rest []
  | '\n' :: rest, cur => cur.reverse :: splitLinesGo rest []
  | c :: rest, cur => splitLinesGo rest (c :: cur)

def splitLinesPy (s : List Char) : List (List Char) := splitLinesGo s []

def stripWsL (l : List Char) : List Char :=
  ((l.dropWhile Char.isWhitespace).reverse.dropWhile Char.isWhitespace).reverse

/-- Python `line.split(maxsplit=1)` on an already stripped line,
returning the two parts when there are at least two tokens. -/
def splitMax1 (l : List Char) : Option (List Char × List Char) :=
  let first := l.takeWhile (fun c => !c.isWhitespace)
  let rest := (l.dropWhile (fun c => !c.isWhitespace)).dropWhile Char.isWhitespace
  if first = [] ∨ rest = [] then none else some (first, rest)

/-- backfill-versions.py lines 97-110. -/
def parse_sha256sums (text : String) : Dict :=
  (splitLinesPy text.data).foldl (fun d lineRaw =>
    let line := stripWsL lineRaw
    if line = [] then d
    else match splitMax1 line with
      | none => d
      | some (checksum, rest) =>
        dictInsert d (String.mk (rest.dropWhile (fun c => c = '*'))) (String.mk checksum)) []

structure GhAsset where
  name : String
  browser_download_url : String
deriving DecidableEq

structure GhRelease where
  tag_name : String
  published_at : String
  prerelease : Bool
  draft : Bool
  assets : List GhAsset
deriving DecidableEq

/-- The SHA256SUMS pass of `fetch_release_checksums` (lines 143-151):
the first SHA256SUMS asset with a URL whose fetch returns 200 and parses
to a non-empty map is authoritative. -/
def sumsLookup (get : String → Nat → Response) : List GhAsset → Option Dict
  | [] => none
  | a :: rest =>
    if a.name = "SHA256SUMS" then
      if a.browser_download_url = "" then sumsLookup get rest
      else
        let r := get a.browser_download_url 1
        if r.status = 200 then
          let d := parse_sha256sums r.text
          if d = [] then sumsLookup get rest else some d
        else sumsLookup get rest
    else sumsLookup get rest

/-- The per-file sidecar pass of `fetch_release_checksums`
(lines 153-166); an `IndexError` escaping `fetch_sha256_file`
propagates. -/
def sidecarLoop (get : String → Nat → Response) : List GhAsset → Dict → Except Unit Dict
  | [], acc => .ok acc
  | a :: rest, acc =>
    if endsWithL a.name ".sha256" then
      let base := String.mk (a.name.data.take (a.name.data.length - 7))
      if a.browser_download_url = "" then sidecarLoop get rest acc
      else
        match (fetch_sha256_file get a.browser_download_url).outcome with
        | .indexError => .error ()
        | .ok none => sidecarLoop get rest acc
        | .ok (some s) =>
          if s = "" then sidecarLoop get rest acc
          else sidecarLoop get rest (dictInsert acc base s)
    else sidecarLoop get rest acc

/-- backfill-versions.py lines 132-166. -/
def fetch_release_checksums (get : String → Nat → Response) (release : GhRelease) :
    Except Unit Dict :=
  match sumsLookup get release.assets with
  | some d => .ok d
  | none => sidecarLoop get release.assets []

/-! ### Release normalizer (backfill-versions.py lines 87-94, 255-394)

`datetime.fromisoformat` is external library code and is modelled as an
oracle `isoParse` into an arbitrary linearly ordered timestamp type; it
returns `none` exactly when the Python call raises `ValueError`. -/

def parse_github_datetime {δ : Type} (isoParse : String → Option δ) (value : String) :
    Option δ :=
  if value = "" then none else isoParse (value.replace "Z" "+00:00")

/-- The asset loop of `process_release` (lines 349-379). -/
def collectAssets (project_name : String) (checksums : Dict) : List GhAsset → List Artifact
  | [] => []
  | a :: rest =>
    let keep : Option Artifact :=
      if ¬ (startsWithL a.name (project_name ++ "-")
          ∧ (endsWithL a.name ".tar.gz" ∨ endsWithL a.name ".zip")) then none
      else if endsWithL a.name ".sha256" then none
      else match extract_platform_from_filename a.name project_name with
        | none => none
        | some platform =>
          if platform = "" then none
          else match dictGet checksums a.name with
            | none => none
            | some sha =>
              if sha = "" then none
              else some ⟨platform, "default", a.browser_download_url,
                get_archive_format a.name, sha⟩
    match keep with
    | some art => art :: collectAssets project_name checksums rest
    | none => collectAssets project_name checksums rest

/-- Grouping `artifacts_by_version.setdefault(version, []).append(...)`:
keys keep first-appearance order, artifacts append in encounter order. -/
def groupInsert : List (String × List Artifact) → String → Artifact →
    List (String × List Artifact)
  | [], k, art => [(k, [art])]
  | (k', arts) :: rest, k, art =>
    if k' = k then (k', arts ++ [art]) :: rest
    else (k', arts) :: groupInsert rest k art

/-- The asset loop of `process_pbs_release` (lines 266-296). -/
def pbsCollect (checksums : Dict) : List GhAsset → List (String × List Artifact) →
    List (String × List Artifact)
  | [], acc => acc
  | a :: rest, acc =>
    if a.name = "SHA256SUMS" then pbsCollect checksums rest acc
    else if ¬ (startsWithL a.name "cpython-"
        ∧ (endsWithL a.name ".tar.gz" ∨ endsWithL a.name ".tar.zst")) then
      pbsCollect checksums rest acc
    else match parse_pbs_asset_filename a.name with
      | none => pbsCollect checksums rest acc
      | some (platform, variant, version) =>
        if a.browser_download_url = "" then pbsCollect checksums rest acc
        else match dictGet checksums a.name with
          | none => pbsCollect checksums rest acc
          | some sha =>
            if sha = "" then pbsCollect checksums rest acc
            else pbsCollect checksums rest (groupInsert acc version
              ⟨platform, variant, a.browser_download_url, get_archive_format a.name, sha⟩)

/-- backfill-versions.py lines 255-313. -/
def process_pbs_release (get : String → Nat → Response) (release : GhRelease)
    (published_at : String) : Except Unit (List Version) :=
  if release.assets = [] then .ok []
  else match fetch_release_checksums get release with
  | .error e => .error e
  | .ok checksums =>
    let grouped := pbsCollect checksums release.assets []
    if grouped = [] then .ok []
    else .ok (pySort versionDescLe (grouped.map (fun kv =>
      ⟨kv.1, published_at, pySort artifactKeyLe kv.2⟩)))

/-- backfill-versions.py lines 316-394.  `org` and `repo` are unused by
the body, as in the source. -/
def process_release {δ : Type} [LinearOrder δ] (isoParse : String → Option δ)
    (get : String → Nat → Response) (release : GhRelease)
    (project_name org repo : String) (cutoff : Option δ) : Except Unit (List Version) :=
  if release.prerelease ∨ release.draft then .ok []
  else if release.tag_name = "" ∨ release.published_at = "" then .ok []
  else
    let published_datetime := parse_github_datetime isoParse release.published_at
    let cutoffHit : Bool :=
      match cutoff, published_datetime with
      | some c, some d => decide (d < c)
      | _, _ => false
    if cutoffHit then .ok []
    else if project_name = "python-build-standalone" then
      process_pbs_release get release release.published_at
    else match fetch_release_checksums get release with
      | .error e => .error e
      | .ok checksums =>
        let artifacts := collectAssets project_name checksums release.assets
        if artifacts = [] then .ok []
        else .ok [⟨release.tag_name, release.published_at, pySort artifactKeyLe artifacts⟩]

/-! ### Release paginator (backfill-versions.py lines 189-252)

The network loop is modelled over the finite list of pages the API
delivers.  `pageScan` is the cutoff scan of one page (lines 238-248):
a release whose publish timestamp parses and precedes the cutoff is
skipped and sets the end-of-pagination flag; every other release,
including one with an unparseable timestamp, is kept. -/

def pageScan {δ : Type} [LinearOrder δ] (isoParse : String → Option δ) (cutoff : δ)
    (data : List GhRelease) : List GhRelease × Bool :=
  data.foldl (fun acc r =>
    match parse_github_datetime isoParse r.published_at with
    | some d => if d < cutoff then (acc.1, true) else (acc.1 ++ [r], acc.2)
    | none => (acc.1 ++ [r], acc.2)) ([], false)

def fetch_github_releases_go {δ : Type} [LinearOrder δ] (isoParse : String → Option δ)
    (cutoff : Option δ) : List (List GhRelease) → List GhRelease
  | [] => []
  | data :: rest =>
    if data = [] then []
    else match cutoff with
      | none => data ++ fetch_github_releases_go isoParse none rest
      | some c =>
        let kr := pageScan isoParse c data
        if kr.2 then kr.1 else kr.1 ++ fetch_github_releases_go isoParse (some c) rest

/-! ### Cargo-dist manifest normalizer (publish-version.py lines 113-213) -/

structure DistRelease where
  app_name : String
  artifacts : List String
deriving DecidableEq

structure Manifest where
  announcement_tag : String
  announcement_github_body : Option String
  releases : List DistRelease
deriving DecidableEq

/-- One attempt of the `re.search` for
`https://github\.com/([^/]+)/([^/]+)/releases/download/` at a fixed
start position; `[^/]+` is greedy but cannot cross the following literal
slash, so each attempt is deterministic. -/
def matchGhAt (s : List Char) : Option (String × String) :=
  match stripPre "https://github.com/".data s with
  | none => none
  | some r0 =>
    let s1 := r0.takeWhile (fun c => c ≠ '/')
    if s1 = [] then none
    else match r0.dropWhile (fun c => c ≠ '/') with
      | '/' :: r2 =>
        let s2 := r2.takeWhile (fun c => c ≠ '/')
        if s2 = [] then none
        else match stripPre "/releases/download/".data (r2.dropWhile (fun c => c ≠ '/')) with
          | none => none
          | some _ => some (String.mk s1, String.mk s2)
      | _ => none

/-- `re.search`: first position where the pattern matches. -/
def searchGh : List Char → Option (String × String)
  | [] => none
  | c :: rest =>
    match matchGhAt (c :: rest) with
    | some r => some r
    | none => searchGh rest

/-- publish-version.py lines 113-139: app name from the first release,
org/repo recovered from the announcement body when possible, fallback
`astral-sh`; `ValueError` when there is no release. -/
def extract_github_info (m : Manifest) : Except Unit (String × String × String) :=
  match m.releases with
  | [] => .error ()
  | r :: _ =>
    match m.announcement_github_body with
    | some body =>
      match searchGh body.data with
      | some (o, rp) => .ok (o, rp, r.app_name)
      | none => .ok ("astral-sh", r.app_name, r.app_name)
    | none => .ok ("astral-sh", r.app_name, r.app_name)

/-- The artifact-name loop of `extract_version_info` (lines 155-202).
An `IndexError` escaping `fetch_sha256` propagates. -/
def eviArtifacts (get : String → Nat → Response)
    (github_org github_repo version app_name : String) :
    List String → Except Unit (List Artifact)
  | [] => .ok []
  | artifact_name :: rest =>
    if ¬ startsWithL artifact_name (app_name ++ "-")
        ∨ endsWithL artifact_name ".sha256"
        ∨ artifact_name = "source.tar.gz"
        ∨ artifact_name = "source.tar.gz.sha256"
        ∨ artifact_name = "sha256.sum"
        ∨ endsWithL artifact_name ".sh"
        ∨ endsWithL artifact_name ".ps1" then
      eviArtifacts get github_org github_repo version app_name rest
    else
      let prefix_len := app_name.length + 1
      let platformOpt : Option String :=
        if endsWithL artifact_name ".tar.gz" then
          some (String.mk ((artifact_name.data.drop prefix_len).take
            (artifact_name.data.length - prefix_len - 7)))
        else if endsWithL artifact_name ".zip" then
          some (String.mk ((artifact_name.data.drop prefix_len).take
            (artifact_name.data.length - prefix_len - 4)))
        else none
      match platformOpt with
      | none => eviArtifacts get github_org github_repo version app_name rest
      | some platform =>
        let dl := "https://github.com/" ++ github_org ++ "/" ++ github_repo
            ++ "/releases/download/" ++ version ++ "/" ++ artifact_name
        match (fetch_sha256 get (dl ++ ".sha256")).outcome with
        | .indexError => .error ()
        | .ok none => eviArtifacts get github_org github_repo version app_name rest
        | .ok (some sha) =>
          if sha = "" then eviArtifacts get github_org github_repo version app_name rest
          else
            match eviArtifacts get github_org github_repo version app_name rest with
            | .error e => .error e
            | .ok arts =>
              .ok (⟨platform, "default", dl, get_archive_format artifact_name, sha⟩ :: arts)

/-- publish-version.py lines 142-213.  `date` is `datetime.now(...)`,
passed in as `now`.  Returns the Version and the app name.  There is no
guard against an empty `artifacts` list on this path. -/
def extract_version_info (get : String → Nat → Response) (now : String) (m : Manifest) :
    Except Unit (Version × String) :=
  match extract_github_info m with
  | .error e => .error e
  | .ok (github_org, github_repo, app_name) =>
    let version := m.announcement_tag
    let names := match m.releases.find? (fun r => r.app_name = app_name) with
      | some r => r.artifacts
      | none => []
    match eviArtifacts get github_org github_repo version app_name names with
    | .error e => .error e
    | .ok artifacts_data =>
      .ok (⟨version, now, pySort artifactKeyLe artifacts_data⟩, app_name)

/-- A cargo-dist manifest whose only release has no qualifying binary
artifact (its single artifact name lacks the `demo-` prefix). -/
def manifestNoBinaries : Manifest := ⟨"1.0.0", none, [⟨"demo", ["source.tar.gz"]⟩]⟩

/-- A release whose publish timestamp is non-empty but unparseable. -/
def rBad : GhRelease := ⟨"v1.0.0", "not-a-date", false, false, []⟩

/-! ### Helper lemmas about the merge -/

theorem foldl_cons_eq_reverse_append (B : List Version) :
    ∀ init : List Version, B.foldl (fun acc v => v :: acc) init = B.reverse ++ init := by
  induction B with
  | nil => intro init; simp
  | cons b bs ih => intro init; simp [List.foldl_cons, ih, List.reverse_cons]

/-- Normal form of the merge: reversed batch in front of the retained
existing entries, truncated to the cap.  The `isEmpty` branch of the code
coincides with filtering against an empty key set. -/
theorem update_versions_file_batch_eq (L B : List Version) (cap : Nat) :
    update_versions_file_batch L B cap =
      (B.reverse ++ L.filter (fun v => v.version ∉ B.map Version.version)).take cap := by
  unfold update_versions_file_batch
  cases B with
  | nil => simp
  | cons b bs => simp [foldl_cons_eq_reverse_append]

lemma take_append_absorb {α : Type} (xs ys : List α) (cap : Nat) :
    (xs ++ ys.take (cap - xs.length)).take cap = (xs ++ ys).take cap := by
  rw [List.take_append_eq_append_take, List.take_append_eq_append_take, List.take_take, min_self]

/-- C1.  Merge is idempotent in its batch argument: re-applying
`update_versions_file_batch` with the identical batch to its own output
yields the same ledger content as applying it once, for every existing
ledger content, batch, and retention cap. -/
theorem merge_batch_idempotent (L B : List Version) (cap : Nat) :
    update_versions_file_batch (update_versions_file_batch L B cap) B cap =
      update_versions_file_batch L B cap := by
  rw [update_versions_file_batch_eq, update_versions_file_batch_eq]
  have h1 : (List.take cap B.reverse).filter
      (fun v => decide (v.version ∉ B.map Version.version)) = [] := by
    refine List.filter_eq_nil_iff.mpr (fun a ha => ?_)
    simp only [decide_eq_true_eq, not_not]
    exact List.mem_map_of_mem Version.version
      (List.mem_reverse.mp ((List.take_sublist _ _).subset ha))
  have h2 : ∀ m : Nat,
      (List.take m (L.filter (fun v => decide (v.version ∉ B.map Version.version)))).filter
        (fun v => decide (v.version ∉ B.map Version.version)) =
      List.take m (L.filter (fun v => decide (v.version ∉ B.map Version.version))) := by
    intro m
    refine List.filter_eq_self.mpr (fun a ha => ?_)
    have ha2 : a ∈ L.filter (fun v => decide (v.version ∉ B.map Version.version)) :=
      (List.take_sublist m _).subset ha
    have := List.of_mem_filter ha2
    simpa using this
  have hmid : (List.take cap
        (B.reverse ++ L.filter (fun v => v.version ∉ B.map Version.version))).filter
        (fun v => v.version ∉ B.map Version.version) =
      List.take (cap - B.reverse.length)
        (L.filter (fun v => v.version ∉ B.map Version.version)) := by
    rw [List.take_append_eq_append_take, List.filter_append, h1, h2, List.nil_append]
  rw [hmid]
  exact take_append_absorb _ _ cap

/-- C2 counterexample.  The merge never deduplicates within the incoming
batch: a batch carrying two records with the same version identifier
produces a ledger with two entries sharing that identifier. -/
theorem merge_duplicate_keys_counterexample :
    ¬ ((update_versions_file_batch [] [vDupA, vDupB] 100).map Version.version).Nodup := by
  decide

/-- C2 amended.  If the incoming batch has pairwise distinct version
identifiers and the existing ledger content has pairwise distinct version
identifiers, then the merge output contains at most one entry per version
identifier. -/
theorem merge_unique_keys (L B : List Version) (cap : Nat)
    (hB : (B.map Version.version).Nodup) (hL : (L.map Version.version).Nodup) :
    ((update_versions_file_batch L B cap).map Version.version).Nodup := by
  rw [update_versions_file_batch_eq, List.map_take]
  refine List.Nodup.sublist (List.take_sublist cap _) ?_
  rw [List.map_append, List.nodup_append]
  refine ⟨?_, ?_, ?_⟩
  · rw [List.map_reverse, List.nodup_reverse]
    exact hB
  · exact List.Nodup.sublist ((List.filter_sublist L).map Version.version) hL
  · intro a haB haR
    have haK : a ∈ B.map Version.version := by
      rw [List.map_reverse, List.mem_reverse] at haB
      exact haB
    obtain ⟨w, hwR, hwv⟩ := List.mem_map.mp haR
    have hw := List.of_mem_filter hwR
    simp only [decide_eq_true_eq] at hw
    exact hw (hwv ▸ haK)

theorem merge_unique_keys_witness :
    ((update_versions_file_batch [v190] [v210] 100).map Version.version).Nodup :=
  merge_unique_keys [v190] [v210] 100 (by decide) (by decide)

/-- C3 counterexample.  With an empty existing ledger and the two-element
batch `[v200new, v210]` (distinct versions), the merge output is the
batch reversed, not the batch in its own order: batch element 0 does not
appear at output position 0. -/
theorem merge_batch_order_counterexample :
    update_versions_file_batch [] [v200new, v210] 100 ≠ [v200new, v210] := by
  decide

/-- C3 amended.  The merge output is the incoming batch in reversed batch
order at the front (batch element `i` appears at output position
`B.length - 1 - i`), followed by the retained existing entries, the whole
truncated to the retention cap. -/
theorem merge_batch_reversed_order (L B : List Version) (cap : Nat) :
    update_versions_file_batch L B cap =
      (B.reverse ++ L.filter (fun v => v.version ∉ B.map Version.version)).take cap
    ∧ ∀ i : Nat, ∀ hi : i < B.length, i < cap →
        (update_versions_file_batch L B cap).get? i = some (B.get ⟨B.length - 1 - i, by omega⟩) := by
  refine ⟨update_versions_file_batch_eq L B cap, ?_⟩
  intro i hi hcap
  rw [update_versions_file_batch_eq, List.get?_take hcap,
    List.get?_append (by simpa using hi), List.get?_reverse (by simpa using hi)]
  exact List.get?_eq_get _

theorem merge_batch_reversed_order_witness :
    update_versions_file_batch [v190] [v200new, v210] 100 =
      ([v210, v200new] ++ [v190]) ∧
    (update_versions_file_batch [v190] [v200new, v210] 100).get? 0 = some v210 :=
  ⟨by decide, (merge_batch_reversed_order [v190] [v200new, v210] 100).2 0 (by decide) (by decide)⟩

/-- C4.  Concrete merge scenario: existing ledger `["2.0.0", "1.9.0"]`,
incoming batch `["2.0.0" (new artifacts), "2.1.0"]`; the output is
`["2.1.0", "2.0.0" (new), "1.9.0"]` in that order. -/
theorem merge_concrete_scenario :
    update_versions_file_batch [v200old, v190] [v200new, v210] 100 = [v210, v200new, v190] := by
  decide

/-! ### Lemmas about prefix/suffix stripping -/

theorem stripPre_eq_some_iff : ∀ (p l r : List Char), stripPre p l = some r ↔ l = p ++ r := by
  intro p
  induction p with
  | nil => intro l r; simp [stripPre]
  | cons a ps ih =>
    intro l r
    cases l with
    | nil => simp [stripPre]
    | cons c cs =>
      simp only [stripPre, List.cons_append, List.cons.injEq]
      by_cases h : a = c
      · subst h; simp [ih]
      · simp only [if_neg h]
        exact iff_of_false (by simp) (by rintro ⟨h1, h2⟩; exact h h1.symm)

theorem stripPre_append (p r : List Char) : stripPre p (p ++ r) = some r :=
  (stripPre_eq_some_iff p (p ++ r) r).mpr rfl

theorem stripPre_eq_none_iff (p l : List Char) : stripPre p l = none ↔ ¬ p <+: l := by
  constructor
  · intro h hpre
    obtain ⟨t, ht⟩ := hpre
    rw [← ht, stripPre_append] at h
    exact Option.noConfusion h
  · intro h
    cases heq : stripPre p l with
    | none => rfl
    | some r => exact absurd ⟨r, ((stripPre_eq_some_iff p l r).mp heq).symm⟩ h

theorem stripSuf_eq_some_iff (l suf g : List Char) : stripSuf l suf = some g ↔ l = g ++ suf := by
  simp only [stripSuf, Option.map_eq_some']
  constructor
  · rintro ⟨x, hx, rfl⟩
    have hx2 := (stripPre_eq_some_iff _ _ _).mp hx
    have : l.reverse.reverse = (suf.reverse ++ x).reverse := by rw [hx2]
    simpa [List.reverse_append] using this
  · intro h
    refine ⟨g.reverse, ?_, by simp⟩
    rw [stripPre_eq_some_iff, h]
    simp [List.reverse_append]

theorem stripSuf_eq_none_iff (l suf : List Char) : stripSuf l suf = none ↔ ¬ suf <:+ l := by
  constructor
  · intro h hsuf
    obtain ⟨t, ht⟩ := hsuf
    rw [show l = t ++ suf from ht.symm] at h
    rw [(stripSuf_eq_some_iff (t ++ suf) suf t).mpr rfl] at h
    exact Option.noConfusion h
  · intro h
    cases heq : stripSuf l suf with
    | none => rfl
    | some g => exact absurd ⟨g, ((stripSuf_eq_some_iff l suf g).mp heq).symm⟩ h

/-- C6 counterexample.  `re.match` with a `$` anchor also matches just
before a single trailing newline, so a filename that does not end in
`.tar.gz` or `.zip` can still parse successfully. -/
theorem extract_platform_trailing_newline_counterexample :
    extract_platform_from_filename "uv-linux.zip\n" "uv" = some "linux"
    ∧ ¬ (".tar.gz".data <:+ "uv-linux.zip\n".data)
    ∧ ¬ (".zip".data <:+ "uv-linux.zip\n".data) := by
  refine ⟨rfl, by decide, by decide⟩

/-- C6 amended.  For every project name and every non-empty newline-free
platform string, parsing the simple-schema filename project-dash-platform
`.tar.gz` returns the platform exactly; a filename lacking the
project-dash prefix returns `none`; and a filename ending in none of
`.tar.gz`, `.zip`, `.tar.gz` + newline, `.zip` + newline returns `none`
(the two newline forms are the amendment: Python's `$` anchor accepts a
single trailing newline). -/
theorem extract_platform_spec :
    (∀ p plat : String, plat ≠ "" → '\n' ∉ plat.data →
      extract_platform_from_filename (p ++ "-" ++ plat ++ ".tar.gz") p = some plat)
    ∧ (∀ f p : String, ¬ ((p.data ++ ['-']) <+: f.data) →
      extract_platform_from_filename f p = none)
    ∧ (∀ f p : String, ¬ (".tar.gz".data <:+ f.data) → ¬ (".zip".data <:+ f.data) →
      ¬ (".tar.gz\n".data <:+ f.data) → ¬ (".zip\n".data <:+ f.data) →
      extract_platform_from_filename f p = none) := by
  refine ⟨?_, ?_, ?_⟩
  · intro p plat hne hnl
    have hstrip : stripPre (p.data ++ ['-']) (p ++ "-" ++ plat ++ ".tar.gz").data
        = some (plat.data ++ ".tar.gz".data) := by
      refine (stripPre_eq_some_iff _ _ _).mpr ?_
      simp only [String.data_append, List.append_assoc]
    have hsuf : pickSuf (plat.data ++ ".tar.gz".data) = some plat.data := by
      rw [pickSuf, (stripSuf_eq_some_iff _ _ _).mpr rfl]
    have hplat : plat.data ≠ [] := by
      intro hd
      exact hne (by cases plat; simp_all)
    rw [extract_platform_from_filename, hstrip]
    simp only [hsuf]
    rw [if_pos ⟨hplat, hnl⟩]
  · intro f p h
    have hnone : stripPre (p.data ++ ['-']) f.data = none := (stripPre_eq_none_iff _ _).mpr h
    rw [extract_platform_from_filename, hnone]
  · intro f p h1 h2 h3 h4
    cases heq : stripPre (p.data ++ ['-']) f.data with
    | none => rw [extract_platform_from_filename, heq]
    | some t =>
      have hsufT : t <:+ f.data :=
        ⟨p.data ++ ['-'], ((stripPre_eq_some_iff _ _ _).mp heq).symm⟩
      have hnone : ∀ suf : List Char, ¬ suf <:+ f.data → stripSuf t suf = none := by
        intro suf hs
        exact (stripSuf_eq_none_iff _ _).mpr (fun hst => hs (hst.trans hsufT))
      have hpick : pickSuf t = none := by
        rw [pickSuf, hnone _ h1, hnone _ h2, hnone _ h3, hnone _ h4]
      rw [extract_platform_from_filename, heq]
      simp only [hpick]

theorem extract_platform_spec_witness :
    extract_platform_from_filename ("uv" ++ "-" ++ "x86_64-unknown-linux-gnu" ++ ".tar.gz") "uv"
      = some "x86_64-unknown-linux-gnu"
    ∧ extract_platform_from_filename "source.tar.gz" "uv" = none
    ∧ extract_platform_from_filename "uv-installer.sh" "uv" = none :=
  ⟨extract_platform_spec.1 "uv" "x86_64-unknown-linux-gnu" (by decide) (by decide),
   extract_platform_spec.2.1 "source.tar.gz" "uv" (by decide),
   extract_platform_spec.2.2 "uv-installer.sh" "uv" (by decide) (by decide) (by decide) (by decide)⟩

/-- C9 counterexample.  A successful (2xx) sidecar fetch whose body has
no whitespace-delimited token makes `content.split()[0]` raise an
uncaught `IndexError`: the fetch neither returns a digest nor returns
`None`, contradicting the claim that a success yields the first token of
the body. -/
theorem fetch_sha256_empty_body_counterexample :
    (fetch_sha256_file (fun _ _ => ⟨200, ""⟩) "https://example.invalid/x.sha256").outcome
      = FetchOutcome.indexError := by
  rfl

/-- C9 amended.  For every digest-sidecar fetch: a 404 returns no digest
immediately with no retry and no sleep; statuses 502/503/504 are retried
with exponential backoff sleeps 2 and 4 up to 3 total attempts and
exhausting them yields no digest; any other HTTP error status yields no
digest at once; a success whose body contains at least one
whitespace-delimited token yields the first token (a success with a
token-free body instead raises an uncaught IndexError, see the
counterexample); a transient failure followed by a success yields the
token on the second attempt after one sleep.  `fetch_sha256` of
publish-version.py behaves identically. -/
theorem fetch_sha256_retry_spec :
    (∀ (get : String → Nat → Response) (url : String),
      (get url 1).status = 404 →
      fetch_sha256_file get url = ⟨.ok none, 1, []⟩)
    ∧ (∀ (get : String → Nat → Response) (url : String),
      ((get url 1).status = 502 ∨ (get url 1).status = 503 ∨ (get url 1).status = 504) →
      ((get url 2).status = 502 ∨ (get url 2).status = 503 ∨ (get url 2).status = 504) →
      ((get url 3).status = 502 ∨ (get url 3).status = 503 ∨ (get url 3).status = 504) →
      fetch_sha256_file get url = ⟨.ok none, 3, [2, 4]⟩)
    ∧ (∀ (get : String → Nat → Response) (url : String),
      400 ≤ (get url 1).status → (get url 1).status ≠ 404 →
      (get url 1).status ≠ 502 → (get url 1).status ≠ 503 → (get url 1).status ≠ 504 →
      fetch_sha256_file get url = ⟨.ok none, 1, []⟩)
    ∧ (∀ (get : String → Nat → Response) (url : String) (tok : String) (rest : List String),
      (get url 1).status < 400 →
      pyTokens (pyStrip (get url 1).text) = tok :: rest →
      fetch_sha256_file get url = ⟨.ok (some tok), 1, []⟩)
    ∧ (∀ (get : String → Nat → Response) (url : String) (tok : String) (rest : List String),
      ((get url 1).status = 502 ∨ (get url 1).status = 503 ∨ (get url 1).status = 504) →
      (get url 2).status < 400 →
      pyTokens (pyStrip (get url 2).text) = tok :: rest →
      fetch_sha256_file get url = ⟨.ok (some tok), 2, [2]⟩)
    ∧ (∀ (get : String → Nat → Response) (url : String),
      fetch_sha256 get url = fetch_sha256_file get url) := by
  refine ⟨?_, ?_, ?_, ?_, ?_, ?_⟩
  · intro get url h
    simp [fetch_sha256_file, fetch_sha256_loop, h]
  · intro get url h1 h2 h3
    rcases h1 with h1|h1|h1 <;> rcases h2 with h2|h2|h2 <;> rcases h3 with h3|h3|h3 <;>
      simp [fetch_sha256_file, fetch_sha256_loop, h1, h2, h3]
  · intro get url h400 h404 h502 h503 h504
    simp [fetch_sha256_file, fetch_sha256_loop, h400, h404, h502, h503, h504]
  · intro get url tok rest hlt htok
    have h404 : (get url 1).status ≠ 404 := by omega
    have h400 : ¬ 400 ≤ (get url 1).status := by omega
    simp [fetch_sha256_file, fetch_sha256_loop, h404, h400, htok]
  · intro get url tok rest h1 hlt htok
    have h404 : (get url 2).status ≠ 404 := by omega
    have h400 : ¬ 400 ≤ (get url 2).status := by omega
    rcases h1 with h1|h1|h1 <;>
      simp [fetch_sha256_file, fetch_sha256_loop, h1, h404, h400, htok]
  · intro get url
    rfl

theorem fetch_sha256_retry_spec_witness :
    fetch_sha256_file (fun _ _ => ⟨404, ""⟩) "u" = ⟨.ok none, 1, []⟩
    ∧ fetch_sha256_file (fun _ _ => ⟨503, ""⟩) "u" = ⟨.ok none, 3, [2, 4]⟩
    ∧ fetch_sha256_file (fun _ _ => ⟨200, " abc  def "⟩) "u" = ⟨.ok (some "abc"), 1, []⟩ :=
  ⟨fetch_sha256_retry_spec.1 _ "u" rfl,
   fetch_sha256_retry_spec.2.1 _ "u" (Or.inr (Or.inl rfl)) (Or.inr (Or.inl rfl))
     (Or.inr (Or.inl rfl)),
   fetch_sha256_retry_spec.2.2.2.1 _ "u" "abc" ["def"] (by decide) (by decide)⟩

/-- C7.  Concrete runtime-distribution parse: the documented filename
parses to triple `x86_64-unknown-linux-gnu`, variant `pgo+lto+full`, and
composite version `3.11.4+20230826`. -/
theorem pbs_parse_concrete :
    parse_pbs_asset_filename
        "cpython-3.11.4+20230826-x86_64-unknown-linux-gnu-pgo+lto-full.tar.zst"
      = some ("x86_64-unknown-linux-gnu", "pgo+lto+full", "3.11.4+20230826") := by
  rfl

/-- C8 counterexample.  A well-formed filename whose intended platform
token has exactly 2 dash-separated segments (`aarch64-linux`) does not
parse to that token: the triple sub-pattern requires at least 3 segments,
so the parser absorbs the adjacent build-variant token `pgo` into the
triple and returns `aarch64-linux-pgo`. -/
theorem pbs_two_segment_counterexample :
    parse_pbs_asset_filename "cpython-3.11.4+20230826-aarch64-linux-pgo-full.tar.zst"
        = some ("aarch64-linux-pgo", "full", "3.11.4+20230826")
      ∧ ("aarch64-linux-pgo" : String) ≠ "aarch64-linux" := by
  exact ⟨rfl, by decide⟩

/-! ### Membership lemmas for the parser combinators -/

theorem mem_pBind {α β : Type} {p : Parse α} {f : α → Parse β} {s : List Char}
    {x : β × List Char} :
    x ∈ pBind p f s ↔ ∃ a r, (a, r) ∈ p s ∧ x ∈ f a r := by
  simp only [pBind, List.mem_flatMap, Prod.exists]

theorem mem_pPure {α : Type} {a : α} {s : List Char} {x : α × List Char} :
    x ∈ pPure a s ↔ x = (a, s) := by
  simp [pPure]

theorem mem_pOr {α : Type} {p q : Parse α} {s : List Char} {x : α × List Char} :
    x ∈ pOr p q s ↔ x ∈ p s ∨ x ∈ q s := by
  simp [pOr]

theorem mem_pOpt {α : Type} {p : Parse α} {s : List Char} {x : Option α × List Char}
    (h : x ∈ pOpt p s) :
    (∃ a, x.1 = some a ∧ (a, x.2) ∈ p s) ∨ x = (none, s) := by
  rcases mem_pOr.mp h with h | h
  · obtain ⟨a, r, hm, hx⟩ := mem_pBind.mp h
    rw [mem_pPure.mp hx]
    exact Or.inl ⟨a, rfl, hm⟩
  · exact Or.inr (mem_pPure.mp h)

theorem mem_pLit {cs s : List Char} {x : Unit × List Char} (h : x ∈ pLit cs s) :
    s = cs ++ x.2 := by
  unfold pLit at h
  cases heq : stripPre cs s with
  | none => rw [heq] at h; simp at h
  | some r =>
    rw [heq] at h
    simp at h
    rw [h]
    exact (stripPre_eq_some_iff cs s r).mp heq

theorem mem_pGuard {c : List Char → Bool} {s : List Char} {x : Unit × List Char}
    (h : x ∈ pGuard c s) : c s = true ∧ x = ((), s) := by
  unfold pGuard at h
  by_cases hc : c s = true
  · rw [if_pos hc] at h
    simp at h
    exact ⟨hc, h⟩
  · rw [if_neg hc] at h
    simp at h

theorem mem_pAtomic {α : Type} {p : Parse α} {s : List Char} {x : α × List Char}
    (h : x ∈ pAtomic p s) : x ∈ p s :=
  (List.take_sublist 1 _).subset h

theorem mem_pGreedy {cl : Char → Bool} {s g r : List Char} (h : (g, r) ∈ pGreedy cl s) :
    g ≠ [] ∧ (∀ c ∈ g, cl c = true) ∧ s = g ++ r := by
  unfold pGreedy at h
  simp only [List.mem_map, List.mem_range, Prod.mk.injEq] at h
  obtain ⟨i, hi, hg, hr⟩ := h
  have hk1 : 1 ≤ (s.takeWhile cl).length - i := by omega
  have hk2 : (s.takeWhile cl).length - i ≤ (s.takeWhile cl).length := by omega
  have hpre : List.takeWhile cl s <+: s := List.takeWhile_prefix cl
  obtain ⟨tail, htail⟩ := hpre
  have hlen : (s.takeWhile cl).length ≤ s.length := (List.takeWhile_prefix cl).length_le
  refine ⟨?_, ?_, ?_⟩
  · intro hnil
    rw [← hg] at hnil
    have hlt := congrArg List.length hnil
    rw [List.length_take] at hlt
    simp only [List.length_nil] at hlt
    omega
  · intro c hc
    rw [← hg] at hc
    set n := (s.takeWhile cl).length - i with hn
    have htk : s.take n = (s.takeWhile cl).take n := by
      conv_lhs => rw [← htail]
      exact List.take_append_of_le_length hk2
    rw [htk] at hc
    exact List.mem_takeWhile_imp (List.take_subset _ _ hc)
  · rw [← hg, ← hr]
    exact (List.take_append_drop _ s).symm

/-- Structure of any result of the triple sub-pattern: four components
from the segment character classes, the optional third one present or
not, and the last one not the literal `debug` (the negative lookahead
holds at its position and a dash follows it). -/
theorem pbsTripleDash_shape {s : List Char} {t : TripleParts} {rest : List Char}
    (h : (t, rest) ∈ pbsTripleDash s) :
    t.t1 ≠ [] ∧ (∀ c ∈ t.t1, isSeg1 c = true)
    ∧ t.t2 ≠ [] ∧ (∀ c ∈ t.t2, isSeg2 c = true)
    ∧ (∀ x, t.t3 = some x → x ≠ [] ∧ ∀ c ∈ x, isSeg2 c = true)
    ∧ t.t4 ≠ [] ∧ (∀ c ∈ t.t4, isSeg1 c = true)
    ∧ t.t4 ≠ "debug".data := by
  unfold pbsTripleDash at h
  obtain ⟨s1, r1, h1, h⟩ := mem_pBind.mp h
  obtain ⟨u2, r2, h2, h⟩ := mem_pBind.mp h
  obtain ⟨s2v, r3, h3, h⟩ := mem_pBind.mp h
  obtain ⟨s3o, r4, h4, h⟩ := mem_pBind.mp h
  obtain ⟨u5, r5, h5, h⟩ := mem_pBind.mp h
  obtain ⟨u6, r6, h6, h⟩ := mem_pBind.mp h
  obtain ⟨s4v, r7, h7, h⟩ := mem_pBind.mp h
  obtain ⟨u8, r8, h8, h⟩ := mem_pBind.mp h
  have hx := mem_pPure.mp h
  injection hx with hx1 hx2
  subst hx1
  obtain ⟨hg1, hcl1, -⟩ := mem_pGreedy h1
  obtain ⟨hg2, hcl2, -⟩ := mem_pGreedy h3
  obtain ⟨hguard, hx6⟩ := mem_pGuard h6
  injection hx6 with hx6a hx6b
  obtain ⟨hg4, hcl4, hsplit4⟩ := mem_pGreedy h7
  have hlit8 := mem_pLit h8
  refine ⟨hg1, hcl1, hg2, hcl2, ?_, hg4, hcl4, ?_⟩
  · intro x hx3
    have hx3' : s3o = some x := hx3
    rcases mem_pOpt h4 with ⟨a, ha1, ha2⟩ | hnone
    · have ha1' : s3o = some a := ha1
      have hax : a = x := by
        rw [ha1'] at hx3'
        exact Option.some.inj hx3'
      subst hax
      obtain ⟨ul, rl, hl, ha3⟩ := mem_pBind.mp (mem_pAtomic ha2)
      obtain ⟨hne, hcl, -⟩ := mem_pGreedy ha3
      exact ⟨hne, hcl⟩
    · exfalso
      have hs3 : s3o = none := by
        have := congrArg Prod.fst hnone
        simpa using this
      rw [hs3] at hx3'
      exact Option.noConfusion hx3'
  · intro hdd
    have hdd' : s4v = "debug".data := hdd
    have hr5 : r5 = "debug".data ++ ('-' :: r8) := by
      rw [← hx6b, hsplit4, hlit8, hdd']
      rfl
    have hld : lookDebug r5 = true := by
      rw [hr5]
      unfold lookDebug
      rw [stripPre_append]
      simp
    rw [hld] at hguard
    simp at hguard

/-- C8 amended.  The platform-triple token accepted by the parser
consists of 3 or 4 dash-separated segments (not 2-3): each segment is
non-empty, drawn from the lowercase-alphanumeric segment classes, and
the final segment is not the literal `debug`.  A filename whose intended
triple has exactly 2 segments is never returned as such; when a variant
token follows, the parser absorbs it as a third triple segment (see the
counterexample). -/
theorem pbs_triple_segment_structure (f t v ver : String)
    (h : parse_pbs_asset_filename f = some (t, v, ver)) :
    ∃ s1 s2 s4 : List Char, ∃ s3 : Option (List Char),
      t.data = s1 ++ '-' :: s2
          ++ (match s3 with | some x => '-' :: x | none => []) ++ '-' :: s4
      ∧ s1 ≠ [] ∧ (∀ c ∈ s1, isSeg1 c = true)
      ∧ s2 ≠ [] ∧ (∀ c ∈ s2, isSeg2 c = true)
      ∧ (∀ x, s3 = some x → x ≠ [] ∧ ∀ c ∈ x, isSeg2 c = true)
      ∧ s4 ≠ [] ∧ (∀ c ∈ s4, isSeg1 c = true)
      ∧ s4 ≠ "debug".data := by
  unfold parse_pbs_asset_filename at h
  cases hh : (pbsAll f.data).head? with
  | none =>
    rw [hh] at h
    exact absurd h (by simp)
  | some x =>
    rw [hh] at h
    obtain ⟨g, grest⟩ := x
    simp only [Option.some.injEq, Prod.mk.injEq] at h
    obtain ⟨ht, hv, hver⟩ := h
    have hmem : (g, grest) ∈ pbsAll f.data := List.mem_of_mem_head? (by rw [hh]; rfl)
    unfold pbsAll at hmem
    obtain ⟨u1, q1, k1, hmem⟩ := mem_pBind.mp hmem
    obtain ⟨verc, q2, k2, hmem⟩ := mem_pBind.mp hmem
    obtain ⟨o3, q3, k3, hmem⟩ := mem_pBind.mp hmem
    obtain ⟨u4, q4, k4, hmem⟩ := mem_pBind.mp hmem
    obtain ⟨datec, q5, k5, hmem⟩ := mem_pBind.mp hmem
    obtain ⟨u6, q6, k6, hmem⟩ := mem_pBind.mp hmem
    obtain ⟨trip, q7, k7, hmem⟩ := mem_pBind.mp hmem
    obtain ⟨bo, q8, k8, hmem⟩ := mem_pBind.mp hmem
    obtain ⟨fl, q9, k9, hmem⟩ := mem_pBind.mp hmem
    obtain ⟨u10, q10, k10, hmem⟩ := mem_pBind.mp hmem
    obtain ⟨u11, q11, k11, hmem⟩ := mem_pBind.mp hmem
    obtain ⟨u12, q12, k12, hmem⟩ := mem_pBind.mp hmem
    have hg := mem_pPure.mp hmem
    injection hg with hg1 hg2
    subst hg1
    obtain ⟨a1, a2, a3, a4, a5, a6, a7, a8⟩ := pbsTripleDash_shape k7
    exact ⟨trip.t1, trip.t2, trip.t4, trip.t3, by rw [← ht]; rfl, a1, a2, a3, a4, a5, a6, a7, a8⟩

theorem pbs_triple_segment_structure_witness :
    ∃ s1 s2 s4 : List Char, ∃ s3 : Option (List Char),
      ("aarch64-linux-pgo" : String).data = s1 ++ '-' :: s2
          ++ (match s3 with | some x => '-' :: x | none => []) ++ '-' :: s4
      ∧ s1 ≠ [] ∧ (∀ c ∈ s1, isSeg1 c = true)
      ∧ s2 ≠ [] ∧ (∀ c ∈ s2, isSeg2 c = true)
      ∧ (∀ x, s3 = some x → x ≠ [] ∧ ∀ c ∈ x, isSeg2 c = true)
      ∧ s4 ≠ [] ∧ (∀ c ∈ s4, isSeg1 c = true)
      ∧ s4 ≠ "debug".data :=
  pbs_triple_segment_structure "cpython-3.11.4+20230826-aarch64-linux-pgo-full.tar.zst"
    "aarch64-linux-pgo" "full" "3.11.4+20230826" rfl

/-- C5 (code bug).  Unlike `process_release` (which returns `[]` when no
artifact survives) and `normalize_payload_version` (which raises on an
empty artifact list), `extract_version_info` has no guard: a cargo-dist
manifest whose release has no qualifying artifact yields a Version with
an empty `artifacts` list, and the merge engine stores it unchanged, so
an empty-artifact Version reaches the ledger. -/
theorem cargo_dist_empty_artifacts_bug :
    extract_version_info (fun _ _ => ⟨404, ""⟩) "2026-01-01T00:00:00+00:00" manifestNoBinaries
        = Except.ok (⟨"1.0.0", "2026-01-01T00:00:00+00:00", []⟩, "demo")
    ∧ (⟨"1.0.0", "2026-01-01T00:00:00+00:00", []⟩ : Version) ∈
        update_versions_file_batch [] [⟨"1.0.0", "2026-01-01T00:00:00+00:00", []⟩] 100
    ∧ (⟨"1.0.0", "2026-01-01T00:00:00+00:00", []⟩ : Version).artifacts = [] := by
  refine ⟨rfl, by decide, rfl⟩

/-- Membership is preserved by the page scan for a release whose
timestamp does not parse, for any accumulator. -/
theorem pageScan_mem_aux {δ : Type} [LinearOrder δ] (isoParse : String → Option δ)
    (cutoff : δ) :
    ∀ (data : List GhRelease) (acc : List GhRelease × Bool) (r : GhRelease),
      (r ∈ acc.1 ∨ (r ∈ data ∧ parse_github_datetime isoParse r.published_at = none)) →
      r ∈ (data.foldl (fun acc r =>
        match parse_github_datetime isoParse r.published_at with
        | some d => if d < cutoff then (acc.1, true) else (acc.1 ++ [r], acc.2)
        | none => (acc.1 ++ [r], acc.2)) acc).1 := by
  intro data
  induction data with
  | nil =>
    intro acc r h
    rcases h with h | ⟨h, _⟩
    · exact h
    · exact absurd h (List.not_mem_nil r)
  | cons a as ih =>
    intro acc r h
    rw [List.foldl_cons]
    apply ih
    rcases h with hacc | ⟨hmem, hparse⟩
    · left
      cases hpa : parse_github_datetime isoParse a.published_at with
      | none => simpa using Or.inl hacc
      | some d =>
        by_cases hd : d < cutoff
        · simp [hpa, hd]
          exact hacc
        · simp [hpa, hd]
          exact Or.inl hacc
    · rcases List.mem_cons.mp hmem with rfl | htail
      · left
        simp [hparse]
      · right
        exact ⟨htail, hparse⟩

/-- C10.  With a cutoff configured, a release whose publish-timestamp
string is non-empty but unparseable is never dropped: the page scan
keeps it and does not raise the end-of-pagination flag, it stays in any
scanned page, and the normalizer's cutoff comparison is skipped for it
(process_release gives the same result with and without a cutoff, hence
it proceeds to artifact processing exactly as without a cutoff). -/
theorem unparseable_timestamp_not_dropped :
    (∀ (δ : Type) (inst : LinearOrder δ) (isoParse : String → Option δ) (cutoff : δ)
      (r : GhRelease),
      r.published_at ≠ "" →
      isoParse (r.published_at.replace "Z" "+00:00") = none →
      pageScan isoParse cutoff [r] = ([r], false))
    ∧ (∀ (δ : Type) (inst : LinearOrder δ) (isoParse : String → Option δ) (cutoff : δ)
      (r : GhRelease) (data : List GhRelease),
      r.published_at ≠ "" →
      isoParse (r.published_at.replace "Z" "+00:00") = none →
      r ∈ data → r ∈ (pageScan isoParse cutoff data).1)
    ∧ (∀ (δ : Type) (inst : LinearOrder δ) (isoParse : String → Option δ)
      (get : String → Nat → Response) (r : GhRelease) (project_name org repo : String)
      (cutoff : δ),
      r.published_at ≠ "" →
      isoParse (r.published_at.replace "Z" "+00:00") = none →
      process_release isoParse get r project_name org repo (some cutoff)
        = process_release isoParse get r project_name org repo none) := by
  have hpdnone : ∀ (δ : Type) (isoParse : String → Option δ) (r : GhRelease),
      r.published_at ≠ "" →
      isoParse (r.published_at.replace "Z" "+00:00") = none →
      parse_github_datetime isoParse r.published_at = none := by
    intro δ isoParse r hpub hparse
    unfold parse_github_datetime
    rw [if_neg hpub, hparse]
  refine ⟨?_, ?_, ?_⟩
  · intro δ inst isoParse cutoff r hpub hparse
    unfold pageScan
    rw [List.foldl_cons]
    rw [hpdnone δ isoParse r hpub hparse]
    rfl
  · intro δ inst isoParse cutoff r data hpub hparse hmem
    unfold pageScan
    exact pageScan_mem_aux isoParse cutoff data ([], false) r
      (Or.inr ⟨hmem, hpdnone δ isoParse r hpub hparse⟩)
  · intro δ inst isoParse get r project_name org repo cutoff hpub hparse
    unfold process_release
    rw [hpdnone δ isoParse r hpub hparse]

theorem unparseable_timestamp_not_dropped_witness :
    pageScan (fun _ => (none : Option Int)) 0 [rBad] = ([rBad], false)
    ∧ rBad ∈ (pageScan (fun _ => (none : Option Int)) 0 [rBad]).1
    ∧ process_release (fun _ => (none : Option Int)) (fun _ _ => ⟨404, ""⟩) rBad
        "uv" "astral-sh" "uv" (some 0)
      = process_release (fun _ => (none : Option Int)) (fun _ _ => ⟨404, ""⟩) rBad
        "uv" "astral-sh" "uv" none :=
  ⟨unparseable_timestamp_not_dropped.1 Int inferInstance (fun _ => none) 0 rBad
      (by decide) rfl,
   unparseable_timestamp_not_dropped.2.1 Int inferInstance (fun _ => none) 0 rBad [rBad]
      (by decide) rfl (List.mem_singleton.mpr rfl),
   unparseable_timestamp_not_dropped.2.2 Int inferInstance (fun _ => none)
      (fun _ _ => ⟨404, ""⟩) rBad "uv" "astral-sh" "uv" 0 (by decide) rfl⟩
